import Mathlib

/-!
Verification of the ARP engine (packet codec, client, server) against its
specification.  The Go source is shallowly embedded: byte slices become
`List Nat` (entries < 256 in the real program), `uint8`/`uint16` arithmetic
is made explicit with `% 256` / `% 65536` where Go truncates, fallible
operations return `Except`/`Option`, and a Go panic (out-of-range slice)
is modelled as `Option.none`.
-/

namespace Arp

/-- A byte slice; each entry is a byte value (< 256 in the real program). -/
abbrev Bytes := List Nat

instance {ε α : Type} [DecidableEq ε] [DecidableEq α] : DecidableEq (Except ε α) := by
  intro a b
  cases a <;> cases b
  case error.error e f =>
    exact if h : e = f then .isTrue (by rw [h]) else .isFalse (by intro hh; cases hh; exact h rfl)
  case error.ok e x => exact .isFalse (by intro hh; cases hh)
  case ok.error x e => exact .isFalse (by intro hh; cases hh)
  case ok.ok x y =>
    exact if h : x = y then .isTrue (by rw [h]) else .isFalse (by intro hh; cases hh; exact h rfl)

/-- The error values the embedded code can produce.
`unexpectedEOF` is `io.ErrUnexpectedEOF` (the spec calls it ShortBuffer),
`invalidARPPacket` is `errInvalidARPPacket` (the spec calls it NotARP),
`invalidMAC`/`invalidIP` are `ErrInvalidMAC`/`ErrInvalidIP`,
`noIPv4Addr` is `errNoIPv4Addr`, `eof` is `io.EOF` (end of stream), and
`transport c` stands for an opaque transport-level I/O error. -/
inductive NetErr where
  | unexpectedEOF
  | invalidARPPacket
  | invalidMAC
  | invalidIP
  | noIPv4Addr
  | eof
  | transport (code : Nat)
  deriving DecidableEq, Repr

/-- Model of `binary.BigEndian.PutUint16`: the two big-endian bytes of a 16-bit value. -/
def putUint16 (v : Nat) : Bytes := [v / 256 % 256, v % 256]

/-- Model of `binary.BigEndian.Uint16 b[k:k+2]`: read a big-endian 16-bit value. -/
def getUint16At (b : Bytes) (k : Nat) : Nat := b.getD k 0 * 256 + b.getD (k + 1) 0

/-- The effect of `copy(dst, src)` on a zero-initialised region of size `n`:
the first `min n src.length` bytes come from `src`, the rest stay zero. -/
def copyInto (n : Nat) (src : Bytes) : Bytes :=
  src.take n ++ List.replicate (n - src.length) 0

/-- The `Packet` struct of `packet.go`.  `HardwareType`, `ProtocolType` and
`Operation` are `uint16` fields, `MACLength` and `IPLength` are `uint8`
fields; the address fields are byte slices. -/
structure Packet where
  HardwareType : Nat
  ProtocolType : Nat
  MACLength : Nat
  IPLength : Nat
  Operation : Nat
  SenderMAC : Bytes
  SenderIP : Bytes
  TargetMAC : Bytes
  TargetIP : Bytes
  deriving DecidableEq, Repr

/-- Constant `ethernet.EtherTypeIPv4` (0x0800). -/
def etherTypeIPv4 : Nat := 2048

/-- Constant `ethernet.EtherTypeARP` (0x0806). -/
def etherTypeARP : Nat := 2054

/-- Model of `Packet.MarshalBinary` of `packet.go`.  Go computes the allocation size
`2+2+1+1+2+(p.IPLength*2)+(p.MACLength*2)` in `uint8` arithmetic, i.e.
modulo 256; the subsequent header writes and address copies slice the
buffer up to offset `8 + 2*MACLength + 2*IPLength` (as `int`s), and Go
panics when a slice bound exceeds the allocation.  The panic is modelled
as `none`. -/
def Packet.MarshalBinary (p : Packet) : Option Bytes :=
  let hal := p.MACLength % 256
  let pl := p.IPLength % 256
  let s := (8 + 2 * pl + 2 * hal) % 256
  if 8 + 2 * hal + 2 * pl ≤ s then
    some (putUint16 p.HardwareType ++ putUint16 p.ProtocolType ++
      [hal, pl] ++ putUint16 p.Operation ++
      copyInto hal p.SenderMAC ++ copyInto pl p.SenderIP ++
      copyInto hal p.TargetMAC ++ copyInto pl p.TargetIP)
  else none

/-- Model of `Packet.UnmarshalBinary` of `packet.go`: reject buffers shorter than the
8-byte fixed header, read the declared lengths at bytes 4 and 5, reject
buffers shorter than `8 + 2*ml + 2*il`, then copy the four addresses out
of the input into one fresh allocation. -/
def Packet.UnmarshalBinary (b : Bytes) : Except NetErr Packet :=
  if b.length < 8 then .error .unexpectedEOF
  else
    let ml := b.getD 4 0
    let il := b.getD 5 0
    if b.length < 8 + 2 * ml + 2 * il then .error .unexpectedEOF
    else .ok {
      HardwareType := getUint16At b 0
      ProtocolType := getUint16At b 2
      MACLength := ml
      IPLength := il
      Operation := getUint16At b 6
      SenderMAC := (b.drop 8).take ml
      SenderIP := (b.drop (8 + ml)).take il
      TargetMAC := (b.drop (8 + ml + il)).take ml
      TargetIP := (b.drop (8 + 2 * ml + il)).take il }

/-- Model of `net.IP.To4`: a 4-byte address is returned as is; a 16-byte address is
accepted when it carries the IPv4-in-IPv6 marker (ten zero bytes then two
0xff bytes), yielding its last four bytes; anything else yields `none`. -/
def to4 (ip : Bytes) : Option Bytes :=
  if ip.length = 4 then some ip
  else if ip.length = 16 ∧ ip.take 10 = List.replicate 10 0 ∧
      ip.getD 10 0 = 255 ∧ ip.getD 11 0 = 255 then
    some (ip.drop 12)
  else none

/-- Model of `NewPacket` of `packet.go`: MAC addresses must be at least 6 bytes and of
equal length, IP addresses must convert with `To4`; on success the packet
carries hardware type 1, the IPv4 ethertype, and lengths taken from the
inputs through `uint8(...)` conversions (which truncate modulo 256). -/
def NewPacket (op : Nat) (srcMAC srcIP dstMAC dstIP : Bytes) : Except NetErr Packet :=
  if srcMAC.length < 6 then .error .invalidMAC
  else if dstMAC.length < 6 then .error .invalidMAC
  else if srcMAC.length ≠ dstMAC.length then .error .invalidMAC
  else match to4 srcIP with
    | none => .error .invalidIP
    | some sip =>
      match to4 dstIP with
      | none => .error .invalidIP
      | some dip => .ok {
          HardwareType := 1
          ProtocolType := etherTypeIPv4
          MACLength := srcMAC.length % 256
          IPLength := sip.length % 256
          Operation := op
          SenderMAC := srcMAC
          SenderIP := sip
          TargetMAC := dstMAC
          TargetIP := dip }

/-- The `ethernet.Frame` struct (destination and source hardware addresses,
ethertype, payload). -/
structure Frame where
  Destination : Bytes
  Source : Bytes
  EtherType : Nat
  Payload : Bytes
  deriving DecidableEq, Repr

/-- Constant `ethernet.Broadcast`: the all-0xFF 6-byte broadcast hardware address. -/
def broadcastMAC : Bytes := List.replicate 6 255

/-- Modelled from the spec: the frame encapsulation capability of §6 (the
external collaborator `github.com/caser789/ethernet`, whose source is not
part of this repository).  Decode fails when the bytes are too short for a
frame header (6-byte destination, 6-byte source, big-endian 16-bit
ethertype); the payload is everything after the header.  This matches the
repository's own tests, which feed 14-byte-headed frames to `parsePacket`
and expect `io.ErrUnexpectedEOF` on an empty buffer. -/
def Frame.UnmarshalBinary (b : Bytes) : Except NetErr Frame :=
  if b.length < 14 then .error .unexpectedEOF
  else .ok {
    Destination := b.take 6
    Source := (b.drop 6).take 6
    EtherType := getUint16At b 12
    Payload := b.drop 14 }

/-- Model of `parsePacket` of `packet.go`: decode the outer ethernet frame, reject
frames whose ethertype is not ARP with `errInvalidARPPacket`, then decode
the ARP packet from the frame payload. -/
def parsePacket (buf : Bytes) : Except NetErr (Packet × Frame) :=
  match Frame.UnmarshalBinary buf with
  | .error e => .error e
  | .ok f =>
    if f.EtherType ≠ etherTypeARP then .error .invalidARPPacket
    else match Packet.UnmarshalBinary f.Payload with
      | .error e => .error e
      | .ok p => .ok (p, f)

/-- The `Client` struct of `client.go`, restricted to the state the embedded
operations observe: the interface hardware address (`c.ifi.HardwareAddr`)
and the local IPv4 address resolved at construction (`c.ip`, `nil` when
the interface had no IPv4 address). -/
structure Client where
  mac : Bytes
  ip : Option Bytes
  deriving DecidableEq, Repr

/-- Model of `Client.Read` of `client.go`, modelled over the stream of transport read
results (`ReadFrom` into a fresh 128-byte buffer, so each datagram is
truncated to its first 128 bytes).  A transport error is returned; a
parse failure equal to `errInvalidARPPacket` is skipped and the loop
continues; any other parse failure is returned; a parsed packet is
returned with its frame.  `none` means the stream was exhausted with the
loop still blocked on the next read. -/
def Client.Read : List (Except NetErr Bytes) → Option (Except NetErr (Packet × Frame))
  | [] => none
  | .error e :: _ => some (.error e)
  | .ok d :: rest =>
    match parsePacket (d.take 128) with
    | .error .invalidARPPacket => Client.Read rest
    | .error e => some (.error e)
    | .ok pf => some (.ok pf)

/-- Model of `net.IP.Equal`: equal lengths compare bytewise; a 4-byte and a 16-byte
address compare equal when the 16-byte one carries the IPv4-in-IPv6
marker and its last four bytes match the 4-byte one. -/
def ipEqual (a b : Bytes) : Bool :=
  if a.length = b.length then a == b
  else if a.length = 4 ∧ b.length = 16 then
    b.take 12 == [0, 0, 0, 0, 0, 0, 0, 0, 0, 0, 255, 255] && a == b.drop 12
  else if a.length = 16 ∧ b.length = 4 then
    a.take 12 == [0, 0, 0, 0, 0, 0, 0, 0, 0, 0, 255, 255] && a.drop 12 == b
  else false

/-- Model of `Client.Request` of `client.go`, with the transport write outcome
abstracted as `w` (the result of `WriteTo` on the raw socket; the frame
encoding of the external ethernet collaborator is total per §6).  A `nil`
local IP yields `errNoIPv4Addr`; a `NewPacket` failure is returned; the
marshalled request is written and the write outcome returned.  The outer
`none` models the panic of `MarshalBinary` (possible only when the
interface MAC length reduced mod 256 exceeds 119). -/
def Client.Request (c : Client) (targetIP : Bytes) (w : Option NetErr) :
    Option (Option NetErr) :=
  match c.ip with
  | none => some (some .noIPv4Addr)
  | some cip =>
    match NewPacket 1 c.mac cip broadcastMAC targetIP with
    | .error e => some (some e)
    | .ok p =>
      match p.MarshalBinary with
      | none => none
      | some _ => some w

/-- The read loop of `Client.Resolve`, over the stream of `Client.Read`
results: a read error is returned; a packet whose operation is not Reply
(2) or whose sender IP does not `Equal` the queried IP is discarded; the
first matching packet's sender MAC is returned.  `none` means the stream
was exhausted with the loop still waiting. -/
def resolveLoop (ip : Bytes) : List (Except NetErr Packet) → Option (Except NetErr Bytes)
  | [] => none
  | .error e :: _ => some (.error e)
  | .ok p :: rest =>
    if p.Operation ≠ 2 ∨ ipEqual p.SenderIP ip = false then resolveLoop ip rest
    else some (.ok p.SenderMAC)

/-- Model of `Client.Resolve` of `client.go`: perform `Request`, returning its error
if it fails, then run the read loop.  The outer `none` models a panic
inside `Request`; `some none` models the loop blocking forever. -/
def Client.Resolve (c : Client) (targetIP : Bytes) (w : Option NetErr)
    (reads : List (Except NetErr Packet)) : Option (Option (Except NetErr Bytes)) :=
  match c.Request targetIP w with
  | none => none
  | some (some e) => some (some (.error e))
  | some none => some (resolveLoop targetIP reads)

/-- A `net.Addr` as observed by `firstIPv4Addr`: its `Network()` tag and the
result of `net.ParseCIDR` applied to its `String()` form (either a parse
error or the parsed IP bytes). -/
structure NetAddr where
  network : String
  cidr : Except NetErr Bytes
  deriving DecidableEq, Repr

/-- Model of `firstIPv4Addr` of `client.go`: skip entries whose network is not
`"ip+net"`; propagate a CIDR parse error; return the first address whose
`To4` conversion succeeds; return `(nil, nil)` — here `.ok none` — when
no entry qualifies. -/
def firstIPv4Addr : List NetAddr → Except NetErr (Option Bytes)
  | [] => .ok none
  | a :: rest =>
    if a.network ≠ "ip+net" then firstIPv4Addr rest
    else match a.cidr with
      | .error e => .error e
      | .ok ip =>
        match to4 ip with
        | some ip4 => .ok (some ip4)
        | none => firstIPv4Addr rest

/-- Model of `newClient` of `client.go`: resolve the local IPv4 address once via
`firstIPv4Addr` (propagating only its error) and store the result —
possibly `none` — in the client. -/
def newClient (mac : Bytes) (addrs : List NetAddr) : Except NetErr Client :=
  match firstIPv4Addr addrs with
  | .error e => .error e
  | .ok ip => .ok { mac := mac, ip := ip }

/-- Model of `Server.newConn` of `server.go`, restricted to its buffer handling: the
per-request task receives a fresh copy of the first `n` bytes of the
shared receive buffer. -/
def Server.newConn (n : Nat) (buf : Bytes) : Bytes := buf.take n

/-- The accept loop of `Server.Serve`, threading the shared 128-byte receive
buffer.  Each successful `ReadFrom` overwrites the first
`min datagram.length 128` bytes of the buffer (the tail keeps stale bytes
from earlier reads) and dispatches a fresh copy of the written range;
`io.EOF` terminates cleanly (`.ok ()`), any other read error is returned.
The result is the list of dispatched per-request buffers and the loop
outcome (`none` when the stream was exhausted with the loop still
blocked). -/
def serveLoop : List (Except NetErr Bytes) → Bytes → List Bytes →
    List Bytes × Option (Except NetErr Unit)
  | [], _, acc => (acc, none)
  | .error e :: _, _, acc =>
    (acc, some (if e = .eof then .ok () else .error e))
  | .ok d :: rest, buf, acc =>
    let n := min d.length 128
    let buf' := d.take n ++ buf.drop n
    serveLoop rest buf' (acc ++ [Server.newConn n buf'])

/-- The outcome of `Server.Serve`: the per-request buffers handed to
dispatched tasks, the loop's return value, and whether the transport was
closed on exit (`defer p.Close()` runs on every exit path). -/
structure ServeResult where
  dispatched : List Bytes
  outcome : Option (Except NetErr Unit)
  closed : Bool
  deriving DecidableEq, Repr

/-- Model of `Server.Serve` of `server.go`: run the accept loop with a fresh
zero-initialised 128-byte buffer; the deferred `p.Close()` closes the
transport on every exit path. -/
def Server.Serve (evts : List (Except NetErr Bytes)) : ServeResult :=
  let r := serveLoop evts (List.replicate 128 0) []
  { dispatched := r.1, outcome := r.2, closed := true }

example : Packet.UnmarshalBinary (List.replicate 7 0) = .error .unexpectedEOF := by decide

example : Packet.UnmarshalBinary [0, 1, 8, 0, 255, 4, 0, 1] = .error .unexpectedEOF := by decide

example :
    Packet.MarshalBinary
      { HardwareType := 1, ProtocolType := etherTypeIPv4, MACLength := 6, IPLength := 4,
        Operation := 1, SenderMAC := [0, 0, 0, 0, 0, 0], SenderIP := [192, 168, 1, 10],
        TargetMAC := [255, 255, 255, 255, 255, 255], TargetIP := [192, 168, 1, 1] } =
    some [0, 1, 8, 0, 6, 4, 0, 1,
      0, 0, 0, 0, 0, 0, 192, 168, 1, 10,
      255, 255, 255, 255, 255, 255, 192, 168, 1, 1] := by decide

example :
    Packet.MarshalBinary
      { HardwareType := 1, ProtocolType := etherTypeIPv4, MACLength := 255, IPLength := 4,
        Operation := 1, SenderMAC := [], SenderIP := [], TargetMAC := [], TargetIP := [] } =
    none := by decide

example :
    NewPacket 1 [0, 0, 0, 0, 0] [0, 0, 0, 0] [0, 0, 0, 0, 0, 0] [0, 0, 0, 0] =
    .error .invalidMAC := by decide

/-! ## Codec lemmas -/

theorem copyInto_of_length_eq {n : Nat} {src : Bytes} (h : src.length = n) :
    copyInto n src = src := by
  subst h
  simp [copyInto]

theorem copyInto_length (n : Nat) (src : Bytes) : (copyInto n src).length = n := by
  simp [copyInto]
  omega

/-- The successful branch of `Packet.MarshalBinary`, in cons normal form. -/
theorem marshalBinary_eq_of_no_overflow (p : Packet)
    (hsz : 8 + 2 * p.MACLength + 2 * p.IPLength ≤ 255) :
    p.MarshalBinary = some (
      p.HardwareType / 256 % 256 :: p.HardwareType % 256 ::
      p.ProtocolType / 256 % 256 :: p.ProtocolType % 256 ::
      p.MACLength :: p.IPLength ::
      p.Operation / 256 % 256 :: p.Operation % 256 ::
      (copyInto p.MACLength p.SenderMAC ++ (copyInto p.IPLength p.SenderIP ++
        (copyInto p.MACLength p.TargetMAC ++ copyInto p.IPLength p.TargetIP)))) := by
  have hm : p.MACLength % 256 = p.MACLength := Nat.mod_eq_of_lt (by omega)
  have hi : p.IPLength % 256 = p.IPLength := Nat.mod_eq_of_lt (by omega)
  have hs : (8 + 2 * (p.IPLength % 256) + 2 * (p.MACLength % 256)) % 256 =
      8 + 2 * p.IPLength + 2 * p.MACLength := by
    rw [hm, hi]
    exact Nat.mod_eq_of_lt (by omega)
  unfold Packet.MarshalBinary
  simp only [hs, hm, hi]
  rw [if_pos (by omega)]
  simp [putUint16]

/-- Lemma: `Packet.MarshalBinary` hits the Go panic (returns `none`) exactly when
the `uint8` size computation wraps, i.e. when the true size
`8 + 2*MACLength + 2*IPLength` exceeds 255 (for in-range length fields). -/
theorem marshalBinary_isNone_iff (p : Packet)
    (hm : p.MACLength < 256) (hi : p.IPLength < 256) :
    p.MarshalBinary = none ↔ 255 < 8 + 2 * p.MACLength + 2 * p.IPLength := by
  constructor
  · intro h
    by_contra hc
    rw [marshalBinary_eq_of_no_overflow p (by omega)] at h
    exact Option.noConfusion h
  · intro h
    have hlt : (8 + 2 * (p.IPLength % 256) + 2 * (p.MACLength % 256)) % 256 < 256 :=
      Nat.mod_lt _ (by omega)
    simp only [Packet.MarshalBinary]
    rw [if_neg]
    rw [Nat.mod_eq_of_lt hm, Nat.mod_eq_of_lt hi] at hlt ⊢
    omega

/-- Splitting a drop over a sum of offsets. -/
theorem drop_add_eq (l : Bytes) (a b : Nat) : l.drop (a + b) = (l.drop a).drop b :=
  (List.drop_drop b a l).symm

/-- Decoding a buffer made of an 8-byte header followed by four address
fields of the declared lengths recovers exactly those fields. -/
theorem unmarshalBinary_header_append (x0 x1 x2 x3 m i x6 x7 : Nat)
    (sm si tm ti : Bytes)
    (hsm : sm.length = m) (hsi : si.length = i)
    (htm : tm.length = m) (hti : ti.length = i) :
    Packet.UnmarshalBinary
      (x0 :: x1 :: x2 :: x3 :: m :: i :: x6 :: x7 :: (sm ++ (si ++ (tm ++ ti)))) =
    .ok { HardwareType := x0 * 256 + x1, ProtocolType := x2 * 256 + x3,
          MACLength := m, IPLength := i, Operation := x6 * 256 + x7,
          SenderMAC := sm, SenderIP := si, TargetMAC := tm, TargetIP := ti } := by
  have hlen :
      (x0 :: x1 :: x2 :: x3 :: m :: i :: x6 :: x7 ::
        (sm ++ (si ++ (tm ++ ti)))).length = 8 + (m + (i + (m + i))) := by
    simp only [List.length_cons, List.length_append, hsm, hsi, htm, hti]
    omega
  have hgd4 :
      (x0 :: x1 :: x2 :: x3 :: m :: i :: x6 :: x7 ::
        (sm ++ (si ++ (tm ++ ti)))).getD 4 0 = m := rfl
  have hgd5 :
      (x0 :: x1 :: x2 :: x3 :: m :: i :: x6 :: x7 ::
        (sm ++ (si ++ (tm ++ ti)))).getD 5 0 = i := rfl
  unfold Packet.UnmarshalBinary
  rw [if_neg (by omega), hgd4, hgd5, if_neg (by omega)]
  have hdrop8 :
      (x0 :: x1 :: x2 :: x3 :: m :: i :: x6 :: x7 ::
        (sm ++ (si ++ (tm ++ ti)))).drop 8 = sm ++ (si ++ (tm ++ ti)) := rfl
  have hd1 : (sm ++ (si ++ (tm ++ ti))).drop m = si ++ (tm ++ ti) :=
    List.drop_left' hsm
  have hd2 : (si ++ (tm ++ ti)).drop i = tm ++ ti := List.drop_left' hsi
  have hd3 : (tm ++ ti).drop m = ti := List.drop_left' htm
  have hdrop8m :
      (x0 :: x1 :: x2 :: x3 :: m :: i :: x6 :: x7 ::
        (sm ++ (si ++ (tm ++ ti)))).drop (8 + m) = si ++ (tm ++ ti) := by
    rw [drop_add_eq, hdrop8, hd1]
  have hdrop8mi :
      (x0 :: x1 :: x2 :: x3 :: m :: i :: x6 :: x7 ::
        (sm ++ (si ++ (tm ++ ti)))).drop (8 + m + i) = tm ++ ti := by
    rw [drop_add_eq, hdrop8m, hd2]
  have hdrop2mi :
      (x0 :: x1 :: x2 :: x3 :: m :: i :: x6 :: x7 ::
        (sm ++ (si ++ (tm ++ ti)))).drop (8 + 2 * m + i) = ti := by
    have h2m : 8 + 2 * m + i = (8 + m + i) + m := by omega
    rw [h2m, drop_add_eq, hdrop8mi, hd3]
  rw [hdrop8, hdrop8m, hdrop8mi, hdrop2mi]
  rw [List.take_left' hsm, List.take_left' hsi, List.take_left' htm,
    List.take_of_length_le hti.le]
  rfl

/-- C1: `Packet.UnmarshalBinary` never panics (it is a total function of the
input bytes), and it fails — always with `io.ErrUnexpectedEOF`, the
spec's ShortBuffer — exactly when the buffer is shorter than 8 bytes or
shorter than `8 + 2*hw_addr_len + 2*proto_addr_len` for the lengths
declared at bytes 4 and 5; in particular a 7-byte buffer fails, as does
an 8-byte header declaring `hw_addr_len = 255, proto_addr_len = 4`. -/
theorem C1_unmarshal_fails_iff_short (b : Bytes) :
    (Packet.UnmarshalBinary b = .error .unexpectedEOF ↔
      b.length < 8 ∨ b.length < 8 + 2 * b.getD 4 0 + 2 * b.getD 5 0) ∧
    (∀ e, Packet.UnmarshalBinary b = .error e → e = .unexpectedEOF) ∧
    Packet.UnmarshalBinary (List.replicate 7 0) = .error .unexpectedEOF ∧
    Packet.UnmarshalBinary [0, 1, 8, 0, 255, 4, 0, 1] = .error .unexpectedEOF := by
  refine ⟨?_, ?_, by decide, by decide⟩
  · simp only [Packet.UnmarshalBinary]
    split
    next h8 => exact iff_of_true rfl (Or.inl h8)
    next h8 =>
      split
      next h2 => exact iff_of_true rfl (Or.inr h2)
      next h2 => exact iff_of_false (by simp) (by omega)
  · intro e h
    simp only [Packet.UnmarshalBinary] at h
    split at h
    · cases h; rfl
    · split at h
      · cases h; rfl
      · cases h

/-- Witness for C1 at the concrete 8-byte header `00 01 08 00 ff 04 00 01`. -/
theorem C1_witness :
    Packet.UnmarshalBinary [0, 1, 8, 0, 255, 4, 0, 1] = .error .unexpectedEOF ∧
    (([0, 1, 8, 0, 255, 4, 0, 1] : Bytes).length < 8 ∨
      ([0, 1, 8, 0, 255, 4, 0, 1] : Bytes).length <
        8 + 2 * ([0, 1, 8, 0, 255, 4, 0, 1] : Bytes).getD 4 0 +
          2 * ([0, 1, 8, 0, 255, 4, 0, 1] : Bytes).getD 5 0) :=
  ⟨(C1_unmarshal_fails_iff_short [0, 1, 8, 0, 255, 4, 0, 1]).2.2.2,
    (C1_unmarshal_fails_iff_short [0, 1, 8, 0, 255, 4, 0, 1]).1.mp
      (C1_unmarshal_fails_iff_short [0, 1, 8, 0, 255, 4, 0, 1]).2.2.2⟩

/-- A consistent packet (declared lengths equal actual address lengths, as
`NewPacket` would build for 124-byte hardware addresses) whose true wire
size `8 + 2*124 + 2*4 = 264` overflows the `uint8` allocation arithmetic
of `MarshalBinary`. -/
def pC2 : Packet :=
  { HardwareType := 1, ProtocolType := etherTypeIPv4, MACLength := 124, IPLength := 4,
    Operation := 1, SenderMAC := List.replicate 124 0, SenderIP := [192, 168, 1, 10],
    TargetMAC := List.replicate 124 255, TargetIP := [192, 168, 1, 1] }

set_option maxRecDepth 4000 in
/-- C2 counterexample: `pC2` has consistent declared/actual address lengths,
yet `MarshalBinary` allocates `264 % 256 = 8` bytes and panics on an
out-of-range slice (modelled as `none`), so `Decode(Encode(p)) = p` fails
for it — there is no encoding at all. -/
theorem C2_counterexample :
    pC2.SenderMAC.length = pC2.MACLength ∧ pC2.SenderIP.length = pC2.IPLength ∧
    pC2.TargetMAC.length = pC2.MACLength ∧ pC2.TargetIP.length = pC2.IPLength ∧
    pC2.MarshalBinary = none ∧
    ¬∃ b, pC2.MarshalBinary = some b ∧ Packet.UnmarshalBinary b = .ok pC2 := by
  refine ⟨by decide, by decide, by decide, by decide, by decide, ?_⟩
  rintro ⟨b, hb, -⟩
  rw [show pC2.MarshalBinary = none by decide] at hb
  exact Option.noConfusion hb

/-- C2 (amended): for every packet whose declared `MACLength`/`IPLength`
match the actual lengths of all four address fields and whose wire size
`8 + 2*MACLength + 2*IPLength` stays within 255 (so that the `uint8`
allocation arithmetic does not wrap), decoding the encoding yields the
packet back — for every 16-bit `Operation` value, not only Request and
Reply, since the operation field is not validated. -/
theorem C2_round_trip (p : Packet)
    (hht : p.HardwareType < 65536) (hpt : p.ProtocolType < 65536)
    (hop : p.Operation < 65536)
    (hsm : p.SenderMAC.length = p.MACLength) (hsi : p.SenderIP.length = p.IPLength)
    (htm : p.TargetMAC.length = p.MACLength) (hti : p.TargetIP.length = p.IPLength)
    (hsz : 8 + 2 * p.MACLength + 2 * p.IPLength ≤ 255) :
    ∃ b, p.MarshalBinary = some b ∧ Packet.UnmarshalBinary b = .ok p := by
  refine ⟨_, marshalBinary_eq_of_no_overflow p hsz, ?_⟩
  rw [copyInto_of_length_eq hsm, copyInto_of_length_eq hsi,
    copyInto_of_length_eq htm, copyInto_of_length_eq hti,
    unmarshalBinary_header_append _ _ _ _ _ _ _ _ _ _ _ _ hsm hsi htm hti]
  have e1 : p.HardwareType / 256 % 256 * 256 + p.HardwareType % 256 = p.HardwareType := by
    omega
  have e2 : p.ProtocolType / 256 % 256 * 256 + p.ProtocolType % 256 = p.ProtocolType := by
    omega
  have e3 : p.Operation / 256 % 256 * 256 + p.Operation % 256 = p.Operation := by
    omega
  rw [e1, e2, e3]

/-- Witness for C2 at the concrete Request packet of the spec's concrete
case 1 (6-byte MACs, 4-byte IPv4 addresses). -/
theorem C2_witness :
    ∃ b,
      Packet.MarshalBinary
        { HardwareType := 1, ProtocolType := etherTypeIPv4, MACLength := 6, IPLength := 4,
          Operation := 1, SenderMAC := [0, 0, 0, 0, 0, 0], SenderIP := [192, 168, 1, 10],
          TargetMAC := [255, 255, 255, 255, 255, 255], TargetIP := [192, 168, 1, 1] } =
        some b ∧
      Packet.UnmarshalBinary b = .ok
        { HardwareType := 1, ProtocolType := etherTypeIPv4, MACLength := 6, IPLength := 4,
          Operation := 1, SenderMAC := [0, 0, 0, 0, 0, 0], SenderIP := [192, 168, 1, 10],
          TargetMAC := [255, 255, 255, 255, 255, 255], TargetIP := [192, 168, 1, 1] } :=
  C2_round_trip _ (by decide) (by decide) (by decide) (by decide) (by decide)
    (by decide) (by decide) (by decide)

/-- C3 counterexample: a packet declaring `MACLength = 255, IPLength = 4`.
The claim says every packet marshals successfully into
`8 + 2*255 + 2*4 = 526` bytes; the code computes the allocation size in
`uint8` arithmetic, `526 % 256 = 14`, and panics writing past it
(modelled as `none`): no byte slice is returned at all. -/
theorem C3_counterexample :
    Packet.MarshalBinary
      { HardwareType := 1, ProtocolType := etherTypeIPv4, MACLength := 255, IPLength := 4,
        Operation := 1, SenderMAC := List.replicate 255 0, SenderIP := [192, 168, 1, 10],
        TargetMAC := List.replicate 255 255, TargetIP := [192, 168, 1, 1] } = none := by
  decide

/-- C3 (amended): for every packet whose declared sizes satisfy
`8 + 2*MACLength + 2*IPLength ≤ 255` (no `uint8` wrap in the allocation
arithmetic), `MarshalBinary` succeeds, and returns a byte slice of length
exactly `8 + 2*MACLength + 2*IPLength` — sized from the declared length
fields, with no hypothesis on the actual address slices — laid out
big-endian as hardware type, protocol type, the two length bytes,
operation, then the four addresses each occupying its declared length
(truncated or zero-padded from the actual slice); and the spec's concrete
Request packet encodes to the exact 28-byte sequence. -/
theorem C3_marshal_sized_from_declared :
    (∀ p : Packet, 8 + 2 * p.MACLength + 2 * p.IPLength ≤ 255 →
      ∃ b, p.MarshalBinary = some b ∧
        b.length = 8 + 2 * p.MACLength + 2 * p.IPLength ∧
        b = putUint16 p.HardwareType ++ putUint16 p.ProtocolType ++
          [p.MACLength, p.IPLength] ++ putUint16 p.Operation ++
          (copyInto p.MACLength p.SenderMAC ++ (copyInto p.IPLength p.SenderIP ++
            (copyInto p.MACLength p.TargetMAC ++ copyInto p.IPLength p.TargetIP)))) ∧
    Packet.MarshalBinary
      { HardwareType := 1, ProtocolType := etherTypeIPv4, MACLength := 6, IPLength := 4,
        Operation := 1, SenderMAC := [0, 0, 0, 0, 0, 0], SenderIP := [192, 168, 1, 10],
        TargetMAC := [255, 255, 255, 255, 255, 255], TargetIP := [192, 168, 1, 1] } =
      some [0, 1, 8, 0, 6, 4, 0, 1,
        0, 0, 0, 0, 0, 0, 192, 168, 1, 10,
        255, 255, 255, 255, 255, 255, 192, 168, 1, 1] := by
  refine ⟨fun p hsz => ⟨_, marshalBinary_eq_of_no_overflow p hsz, ?_, ?_⟩, by decide⟩
  · simp only [List.length_cons, List.length_append, copyInto_length]
    omega
  · simp [putUint16]

/-- Witness for C3 at the concrete case-1 packet. -/
theorem C3_witness :
    ∃ b,
      Packet.MarshalBinary
        { HardwareType := 1, ProtocolType := etherTypeIPv4, MACLength := 6, IPLength := 4,
          Operation := 1, SenderMAC := [0, 0, 0, 0, 0, 0], SenderIP := [192, 168, 1, 10],
          TargetMAC := [255, 255, 255, 255, 255, 255], TargetIP := [192, 168, 1, 1] } =
        some b ∧
      b.length = 8 + 2 * 6 + 2 * 4 ∧
      b = putUint16 1 ++ putUint16 etherTypeIPv4 ++ [6, 4] ++ putUint16 1 ++
        (copyInto 6 [0, 0, 0, 0, 0, 0] ++ (copyInto 4 [192, 168, 1, 10] ++
          (copyInto 6 [255, 255, 255, 255, 255, 255] ++ copyInto 4 [192, 168, 1, 1]))) :=
  C3_marshal_sized_from_declared.1
    { HardwareType := 1, ProtocolType := etherTypeIPv4, MACLength := 6, IPLength := 4,
      Operation := 1, SenderMAC := [0, 0, 0, 0, 0, 0], SenderIP := [192, 168, 1, 10],
      TargetMAC := [255, 255, 255, 255, 255, 255], TargetIP := [192, 168, 1, 1] }
    (by decide)

theorem to4_length {ip l : Bytes} (h : to4 ip = some l) : l.length = 4 := by
  unfold to4 at h
  split at h
  next h4 =>
    cases h
    exact h4
  next h4 =>
    split at h
    next h16 =>
      cases h
      simp [h16.1]
    next => exact Option.noConfusion h

set_option maxRecDepth 8000 in
/-- C4 counterexample: `NewPacket` accepts two matching 256-byte hardware
addresses but stores `uint8(len(srcMAC)) = 256 % 256 = 0` in `MACLength`,
not the length 256 of `srcMAC` as the claim states. -/
theorem C4_counterexample :
    (NewPacket 2 (List.replicate 256 7) [1, 2, 3, 4]
      (List.replicate 256 9) [5, 6, 7, 8]).toOption.map Packet.MACLength = some 0 ∧
    (List.replicate 256 7 : Bytes).length ≠ 0 := by
  exact ⟨by decide, by decide⟩

/-- C4 (amended): `NewPacket` fails with `ErrInvalidMAC` exactly when either
MAC is shorter than 6 bytes or the two MAC lengths differ (longer
matching MACs are accepted); when the MACs pass, it fails with
`ErrInvalidIP` exactly when either IP is not representable as a 4-byte
IPv4 address (`To4` fails); and on success it returns a packet with
`HardwareType = 1`, `ProtocolType` = the IPv4 ethertype, `Operation` =
the given operation, `MACLength` = the length of `srcMAC` reduced mod 256
(the `uint8` field truncates; this equals the length whenever `srcMAC`
is shorter than 256 bytes), and `IPLength = 4`. -/
theorem C4_newPacket (op : Nat) (srcMAC srcIP dstMAC dstIP : Bytes) :
    (NewPacket op srcMAC srcIP dstMAC dstIP = .error .invalidMAC ↔
      srcMAC.length < 6 ∨ dstMAC.length < 6 ∨ srcMAC.length ≠ dstMAC.length) ∧
    (6 ≤ srcMAC.length → 6 ≤ dstMAC.length → srcMAC.length = dstMAC.length →
      (NewPacket op srcMAC srcIP dstMAC dstIP = .error .invalidIP ↔
        to4 srcIP = none ∨ to4 dstIP = none)) ∧
    (∀ p, NewPacket op srcMAC srcIP dstMAC dstIP = .ok p →
      p.HardwareType = 1 ∧ p.ProtocolType = etherTypeIPv4 ∧ p.Operation = op ∧
      p.MACLength = srcMAC.length % 256 ∧ p.IPLength = 4 ∧
      p.SenderMAC = srcMAC ∧ p.TargetMAC = dstMAC) := by
  refine ⟨?_, ?_, ?_⟩
  · simp only [NewPacket]
    by_cases h1 : srcMAC.length < 6
    · rw [if_pos h1]
      simp [h1]
    · rw [if_neg h1]
      by_cases h2 : dstMAC.length < 6
      · rw [if_pos h2]
        simp [h1, h2]
      · rw [if_neg h2]
        by_cases h3 : srcMAC.length ≠ dstMAC.length
        · rw [if_pos h3]
          simp [h1, h2, h3]
        · rw [if_neg h3]
          cases hs : to4 srcIP with
          | none => simp [h1, h2, h3]
          | some sip =>
            cases hd : to4 dstIP with
            | none => simp [h1, h2, h3]
            | some dip => simp [h1, h2, h3]
  · intro hs6 hd6 heq
    simp only [NewPacket]
    rw [if_neg (by omega), if_neg (by omega), if_neg (by simp [heq])]
    cases hs : to4 srcIP with
    | none => simp
    | some sip =>
      cases hd : to4 dstIP with
      | none => simp
      | some dip => simp
  · intro p hok
    simp only [NewPacket] at hok
    split at hok
    · cases hok
    · split at hok
      · cases hok
      · split at hok
        · cases hok
        · split at hok
          · cases hok
          next sip hs =>
            split at hok
            · cases hok
            next dip hd =>
              cases hok
              refine ⟨rfl, rfl, rfl, rfl, ?_, rfl, rfl⟩
              simp [to4_length hs]

/-- Witness for C4: the invalid-IP characterization at a 3-byte source IP
with 6-byte MACs, and the success fields at a concrete Request. -/
theorem C4_witness :
    (NewPacket 7 [0, 0, 0, 0, 0, 0] [1, 2, 3] [0, 0, 0, 0, 0, 1] [192, 168, 1, 1] =
        .error .invalidIP ↔
      to4 [1, 2, 3] = none ∨ to4 [192, 168, 1, 1] = none) ∧
    ((1 : Nat) = 1 ∧ etherTypeIPv4 = etherTypeIPv4 ∧ (7 : Nat) = 7 ∧
      (6 : Nat) = ([0, 0, 0, 0, 0, 0] : Bytes).length % 256 ∧ (4 : Nat) = 4 ∧
      ([0, 0, 0, 0, 0, 0] : Bytes) = [0, 0, 0, 0, 0, 0] ∧
      ([0, 0, 0, 0, 0, 1] : Bytes) = [0, 0, 0, 0, 0, 1]) :=
  ⟨(C4_newPacket 7 [0, 0, 0, 0, 0, 0] [1, 2, 3] [0, 0, 0, 0, 0, 1]
      [192, 168, 1, 1]).2.1 (by decide) (by decide) (by decide),
    (C4_newPacket 7 [0, 0, 0, 0, 0, 0] [192, 168, 1, 10] [0, 0, 0, 0, 0, 1]
      [192, 168, 1, 1]).2.2
      { HardwareType := 1, ProtocolType := etherTypeIPv4, MACLength := 6, IPLength := 4,
        Operation := 7, SenderMAC := [0, 0, 0, 0, 0, 0], SenderIP := [192, 168, 1, 10],
        TargetMAC := [0, 0, 0, 0, 0, 1], TargetIP := [192, 168, 1, 1] } (by decide)⟩

/-! ## Client read-loop lemmas -/

/-- The packets `Client.Resolve` discards: operation not Reply, or sender IP
not equal to the queried IP. -/
def discardable (targetIP : Bytes) (p : Packet) : Prop :=
  p.Operation ≠ 2 ∨ ipEqual p.SenderIP targetIP = false

instance (targetIP : Bytes) (p : Packet) : Decidable (discardable targetIP p) := by
  unfold discardable
  infer_instance

theorem resolveLoop_error_inv (targetIP : Bytes) :
    ∀ (reads : List (Except NetErr Packet)) (e : NetErr),
      resolveLoop targetIP reads = some (.error e) →
      ∃ l r, reads = l ++ .error e :: r ∧
        ∀ q ∈ l, ∃ pk, q = .ok pk ∧ discardable targetIP pk := by
  intro reads
  induction reads with
  | nil =>
    intro e h
    simp [resolveLoop] at h
  | cons q rest ih =>
    intro e h
    cases q with
    | error f =>
      simp only [resolveLoop, Option.some.injEq] at h
      cases h
      exact ⟨[], rest, rfl, by simp⟩
    | ok p =>
      simp only [resolveLoop] at h
      split at h
      next hc =>
        obtain ⟨l, r, hr, hl⟩ := ih e h
        refine ⟨.ok p :: l, r, by rw [hr, List.cons_append], ?_⟩
        intro q hq
        rcases List.mem_cons.mp hq with h1 | h2
        · exact ⟨p, h1, hc⟩
        · exact hl q h2
      next hc =>
        simp at h

theorem resolveLoop_ok_inv (targetIP : Bytes) :
    ∀ (reads : List (Except NetErr Packet)) (mac : Bytes),
      resolveLoop targetIP reads = some (.ok mac) →
      ∃ l p r, reads = l ++ .ok p :: r ∧ p.Operation = 2 ∧
        ipEqual p.SenderIP targetIP = true ∧ mac = p.SenderMAC ∧
        ∀ q ∈ l, ∃ pk, q = .ok pk ∧ discardable targetIP pk := by
  intro reads
  induction reads with
  | nil =>
    intro mac h
    simp [resolveLoop] at h
  | cons q rest ih =>
    intro mac h
    cases q with
    | error f => simp [resolveLoop] at h
    | ok p =>
      simp only [resolveLoop] at h
      split at h
      next hc =>
        obtain ⟨l, p', r, hr, h2, h3, h4, hl⟩ := ih mac h
        refine ⟨.ok p :: l, p', r, by rw [hr, List.cons_append], h2, h3, h4, ?_⟩
        intro q hq
        rcases List.mem_cons.mp hq with h1 | h2'
        · exact ⟨p, h1, hc⟩
        · exact hl q h2'
      next hc =>
        simp only [Option.some.injEq] at h
        cases h
        have h2 : p.Operation = 2 := by
          by_contra hop
          exact hc (Or.inl hop)
        have h3 : ipEqual p.SenderIP targetIP = true := by
          by_contra hip
          exact hc (Or.inr (by simpa using hip))
        exact ⟨[], p, rest, rfl, h2, h3, rfl, by simp⟩

/-- C5: `Client.Resolve` returns the error of a failed initial `Request`;
otherwise it runs the read loop, which propagates a read error, skips any
packet whose operation is not Reply or whose sender IP does not equal the
queried IP, and returns the sender MAC of the first matching packet; a
returned MAC is always the sender MAC of the first matching packet of the
stream, and an error is returned only when a read error precedes any
matching packet. -/
theorem C5_resolve (c : Client) (targetIP : Bytes) (w : Option NetErr)
    (reads : List (Except NetErr Packet)) :
    (∀ e, c.Request targetIP w = some (some e) →
      c.Resolve targetIP w reads = some (some (.error e))) ∧
    (c.Request targetIP w = some none →
      c.Resolve targetIP w reads = some (resolveLoop targetIP reads)) ∧
    (∀ e rest, resolveLoop targetIP (.error e :: rest) = some (.error e)) ∧
    (∀ p rest, discardable targetIP p →
      resolveLoop targetIP (.ok p :: rest) = resolveLoop targetIP rest) ∧
    (∀ p rest, p.Operation = 2 → ipEqual p.SenderIP targetIP = true →
      resolveLoop targetIP (.ok p :: rest) = some (.ok p.SenderMAC)) ∧
    (∀ mac, resolveLoop targetIP reads = some (.ok mac) →
      ∃ l p r, reads = l ++ .ok p :: r ∧ p.Operation = 2 ∧
        ipEqual p.SenderIP targetIP = true ∧ mac = p.SenderMAC ∧
        ∀ q ∈ l, ∃ pk, q = .ok pk ∧ discardable targetIP pk) ∧
    (∀ e, resolveLoop targetIP reads = some (.error e) →
      ∃ l r, reads = l ++ .error e :: r ∧
        ∀ q ∈ l, ∃ pk, q = .ok pk ∧ discardable targetIP pk) := by
  refine ⟨?_, ?_, ?_, ?_, ?_, resolveLoop_ok_inv targetIP reads,
    resolveLoop_error_inv targetIP reads⟩
  · intro e h
    simp [Client.Resolve, h]
  · intro h
    simp [Client.Resolve, h]
  · intro e rest
    simp [resolveLoop]
  · intro p rest hp
    unfold discardable at hp
    simp only [resolveLoop]
    rw [if_pos hp]
  · intro p rest hop hip
    simp only [resolveLoop]
    rw [if_neg]
    simp [hop, hip]

/-- An unrelated Request-operation packet, discarded by the resolve loop. -/
def pDiscard : Packet :=
  { HardwareType := 1, ProtocolType := etherTypeIPv4, MACLength := 6, IPLength := 4,
    Operation := 1, SenderMAC := [2, 2, 2, 2, 2, 2], SenderIP := [10, 0, 0, 2],
    TargetMAC := [0, 0, 0, 0, 0, 1], TargetIP := [10, 0, 0, 1] }

/-- The matching Reply packet returned by the resolve loop. -/
def pReply : Packet :=
  { HardwareType := 1, ProtocolType := etherTypeIPv4, MACLength := 6, IPLength := 4,
    Operation := 2, SenderMAC := [2, 2, 2, 2, 2, 2], SenderIP := [10, 0, 0, 2],
    TargetMAC := [0, 0, 0, 0, 0, 1], TargetIP := [10, 0, 0, 1] }

/-- Witness for C5: a client with a local IP resolves a two-packet stream —
a Request-operation packet from the right IP (discarded), then a Reply
from the right IP — to the second packet's sender MAC. -/
theorem C5_witness :
    Client.Resolve { mac := [0, 0, 0, 0, 0, 1], ip := some [10, 0, 0, 1] }
      [10, 0, 0, 2] none [.ok pDiscard, .ok pReply] =
      some (some (.ok [2, 2, 2, 2, 2, 2])) := by
  have h := (C5_resolve { mac := [0, 0, 0, 0, 0, 1], ip := some [10, 0, 0, 1] }
    [10, 0, 0, 2] none [.ok pDiscard, .ok pReply]).2.1 (by decide)
  rw [h]
  decide

theorem read_never_surfaces_invalidARP :
    ∀ evts : List (Except NetErr Bytes),
      (∀ e, Except.error e ∈ evts → e ≠ NetErr.invalidARPPacket) →
      Client.Read evts ≠ some (.error .invalidARPPacket) := by
  intro evts
  induction evts with
  | nil =>
    intro _ h
    simp [Client.Read] at h
  | cons q rest ih =>
    intro hev h
    cases q with
    | error e =>
      simp only [Client.Read, Option.some.injEq] at h
      cases h
      exact hev _ (by simp) rfl
    | ok d =>
      simp only [Client.Read] at h
      split at h
      · exact ih (fun e he => hev e (List.mem_cons_of_mem _ he)) h
      next e hne hp =>
        simp only [Option.some.injEq] at h
        cases h
        exact hne rfl
      · simp at h

/-- C6: `Client.Read` silently skips a datagram whose frame decodes with a
non-ARP ethertype (`parsePacket` yields `errInvalidARPPacket` and the
loop continues with the next datagram), never surfaces that condition to
the caller (assuming the transport itself never produces it), returns any
other decode failure on an ARP-typed frame — such as the ShortBuffer
`io.ErrUnexpectedEOF` on a truncated ARP payload — to the caller, and on
a successful parse returns the decoded packet with its enclosing
frame. -/
theorem C6_read_skip_and_surface (d : Bytes) (rest evts : List (Except NetErr Bytes)) :
    (∀ f, Frame.UnmarshalBinary (d.take 128) = .ok f → f.EtherType ≠ etherTypeARP →
      parsePacket (d.take 128) = .error .invalidARPPacket) ∧
    (parsePacket (d.take 128) = .error .invalidARPPacket →
      Client.Read (.ok d :: rest) = Client.Read rest) ∧
    (∀ e, parsePacket (d.take 128) = .error e → e ≠ .invalidARPPacket →
      Client.Read (.ok d :: rest) = some (.error e)) ∧
    (∀ pf, parsePacket (d.take 128) = .ok pf →
      Client.Read (.ok d :: rest) = some (.ok pf)) ∧
    ((∀ e, Except.error e ∈ evts → e ≠ NetErr.invalidARPPacket) →
      Client.Read evts ≠ some (.error .invalidARPPacket)) := by
  refine ⟨?_, ?_, ?_, ?_, read_never_surfaces_invalidARP evts⟩
  · intro f hf hne
    simp only [parsePacket, hf]
    rw [if_pos hne]
  · intro hp
    simp only [Client.Read, hp]
  · intro e hp hne
    cases e <;> simp only [Client.Read, hp]
    exact absurd rfl hne
  · intro pf hp
    simp only [Client.Read, hp]

/-- A 21-byte ARP-typed frame whose 7-byte payload is too short for the ARP
fixed header: a truncated ARP datagram. -/
def truncatedARPFrame : Bytes :=
  [0, 0, 0, 0, 0, 0, 0, 0, 0, 0, 0, 0, 8, 6] ++ List.replicate 7 0

/-- Witness for C6: reading a stream whose only datagram is a truncated
ARP-typed frame surfaces the ShortBuffer error `io.ErrUnexpectedEOF`. -/
theorem C6_witness :
    Client.Read [.ok truncatedARPFrame] = some (.error .unexpectedEOF) :=
  (C6_read_skip_and_surface truncatedARPFrame [] []).2.2.1 .unexpectedEOF
    (by decide) (by decide)

/-! ## Construction-time IPv4 resolution -/

theorem firstIPv4Addr_eq_none (addrs : List NetAddr)
    (h : ∀ a ∈ addrs, a.network = "ip+net" → ∃ ip, a.cidr = .ok ip ∧ to4 ip = none) :
    firstIPv4Addr addrs = .ok none := by
  induction addrs with
  | nil => rfl
  | cons a rest ih =>
    have ihh := ih fun a' ha' => h a' (List.mem_cons_of_mem _ ha')
    by_cases hn : a.network = "ip+net"
    · obtain ⟨ip, hok, h4⟩ := h a (List.mem_cons_self a rest) hn
      simp [firstIPv4Addr, hn, hok, h4, ihh]
    · simp [firstIPv4Addr, hn, ihh]

/-- An interface address list with a single IPv6 (non-IPv4-capable) entry. -/
def addrsV6Only : List NetAddr :=
  [{ network := "ip+net", cidr := .ok (List.replicate 16 1) }]

/-- C7 counterexample: on an address list containing no IPv4 entry (one
IPv6 address), `firstIPv4Addr` returns `(nil, nil)` — not an error — and
`newClient` therefore succeeds, storing a `nil` local IP; construction
does not fail with `errNoIPv4Addr` as the claim states. -/
theorem C7_counterexample :
    firstIPv4Addr addrsV6Only = .ok none ∧
    newClient [0, 0, 0, 0, 0, 1] addrsV6Only = .ok { mac := [0, 0, 0, 0, 0, 1], ip := none } ∧
    newClient [0, 0, 0, 0, 0, 1] addrsV6Only ≠ .error .noIPv4Addr := by
  refine ⟨by decide, by decide, ?_⟩
  intro h
  rw [show newClient [0, 0, 0, 0, 0, 1] addrsV6Only =
    .ok { mac := [0, 0, 0, 0, 0, 1], ip := none } by decide] at h
  exact Except.noConfusion h

/-- C7 (amended): client construction resolves the local IPv4 address once,
at construction time — the first entry of the interface address list with
network `"ip+net"` whose CIDR parses to an IPv4-capable address wins, a
CIDR parse error fails construction — but when the list contains no IPv4
address, construction succeeds storing a `nil` local IP (`firstIPv4Addr`
returns `(nil, nil)`); the `errNoIPv4Addr` error is instead returned by
`Request` when it is later invoked on such a client. -/
theorem C7_construction_ipv4 :
    (∀ (a : NetAddr) rest, a.network ≠ "ip+net" →
      firstIPv4Addr (a :: rest) = firstIPv4Addr rest) ∧
    (∀ (a : NetAddr) rest ip, a.network = "ip+net" → a.cidr = .ok ip → to4 ip = none →
      firstIPv4Addr (a :: rest) = firstIPv4Addr rest) ∧
    (∀ (a : NetAddr) rest ip ip4, a.network = "ip+net" → a.cidr = .ok ip →
      to4 ip = some ip4 → firstIPv4Addr (a :: rest) = .ok (some ip4)) ∧
    (∀ (a : NetAddr) rest e, a.network = "ip+net" → a.cidr = .error e →
      firstIPv4Addr (a :: rest) = .error e) ∧
    (∀ mac addrs ip, firstIPv4Addr addrs = .ok ip →
      newClient mac addrs = .ok { mac := mac, ip := ip }) ∧
    (∀ mac addrs,
      (∀ a ∈ addrs, a.network = "ip+net" → ∃ ip, a.cidr = .ok ip ∧ to4 ip = none) →
      newClient mac addrs = .ok { mac := mac, ip := none }) ∧
    (∀ mac targetIP w,
      Client.Request { mac := mac, ip := none } targetIP w = some (some .noIPv4Addr)) := by
  refine ⟨?_, ?_, ?_, ?_, ?_, ?_, fun _ _ _ => rfl⟩
  · intro a rest hn
    simp only [firstIPv4Addr]
    rw [if_pos hn]
  · intro a rest ip hn hok h4
    simp [firstIPv4Addr, hn, hok, h4]
  · intro a rest ip ip4 hn hok h4
    simp [firstIPv4Addr, hn, hok, h4]
  · intro a rest e hn herr
    simp [firstIPv4Addr, hn, herr]
  · intro mac addrs ip h
    simp [newClient, h]
  · intro mac addrs h
    simp [newClient, firstIPv4Addr_eq_none addrs h]

/-- Witness for C7 at a two-entry list: an IPv6 entry followed by an IPv4
entry — the IPv4 entry wins — and the deferred `errNoIPv4Addr` from
`Request` on an IP-less client. -/
theorem C7_witness :
    firstIPv4Addr
      ({ network := "ip+net", cidr := .ok (List.replicate 16 1) } ::
        [{ network := "ip+net", cidr := .ok [10, 0, 0, 9] }]) =
      .ok (some [10, 0, 0, 9]) ∧
    Client.Request { mac := [0, 0, 0, 0, 0, 1], ip := none } [10, 0, 0, 2] none =
      some (some .noIPv4Addr) := by
  constructor
  · rw [C7_construction_ipv4.2.1 _ _ (List.replicate 16 1) (by decide) (by decide) (by decide)]
    exact C7_construction_ipv4.2.2.1 _ [] [10, 0, 0, 9] [10, 0, 0, 9]
      (by decide) (by decide) (by decide)
  · exact C7_construction_ipv4.2.2.2.2.2.2 [0, 0, 0, 0, 0, 1] [10, 0, 0, 2] none

/-- C9: when the interface address list contains no IPv4 entry, `newClient`
succeeds and stores a `nil` local IP because `firstIPv4Addr` returns a
nil address with a nil error (`.ok none`; in particular on the empty
list); `errNoIPv4Addr` is instead returned by `Request` on such a client,
and hence by `Resolve`, which begins with `Request`. -/
theorem C9_noIPv4_error_deferred (mac : Bytes) (addrs : List NetAddr)
    (targetIP : Bytes) (w : Option NetErr) (reads : List (Except NetErr Packet)) :
    firstIPv4Addr [] = .ok none ∧
    ((∀ a ∈ addrs, a.network = "ip+net" → ∃ ip, a.cidr = .ok ip ∧ to4 ip = none) →
      newClient mac addrs = .ok { mac := mac, ip := none }) ∧
    Client.Request { mac := mac, ip := none } targetIP w = some (some .noIPv4Addr) ∧
    Client.Resolve { mac := mac, ip := none } targetIP w reads =
      some (some (.error .noIPv4Addr)) := by
  refine ⟨rfl, ?_, rfl, rfl⟩
  intro h
  simp [newClient, firstIPv4Addr_eq_none addrs h]

/-- Witness for C9: the IPv6-only list again, with a concrete `Resolve`
ending in the deferred `errNoIPv4Addr`. -/
theorem C9_witness :
    newClient [0, 0, 0, 0, 0, 2] addrsV6Only = .ok { mac := [0, 0, 0, 0, 0, 2], ip := none } ∧
    Client.Resolve { mac := [0, 0, 0, 0, 0, 2], ip := none } [10, 0, 0, 3] none [] =
      some (some (.error .noIPv4Addr)) := by
  have hv6 : ∀ a ∈ addrsV6Only, a.network = "ip+net" →
      ∃ ip, a.cidr = .ok ip ∧ to4 ip = none := by
    intro a ha _
    rw [List.mem_singleton.mp ha]
    exact ⟨List.replicate 16 1, rfl, by decide⟩
  exact ⟨(C9_noIPv4_error_deferred [0, 0, 0, 0, 0, 2] addrsV6Only [10, 0, 0, 3] none []).2.1
      hv6,
    (C9_noIPv4_error_deferred [0, 0, 0, 0, 0, 2] addrsV6Only [10, 0, 0, 3] none []).2.2.2⟩

/-! ## Server accept-loop lemmas -/

theorem take_min_length (d : Bytes) : d.take (min d.length 128) = d.take 128 := by
  rcases le_total d.length 128 with h | h
  · rw [Nat.min_eq_left h, List.take_length, List.take_of_length_le h]
  · rw [Nat.min_eq_right h]

/-- The per-request copy taken from the just-overwritten shared buffer is
exactly the datagram truncated to 128 bytes — independent of the stale
buffer contents. -/
theorem newConn_fresh_copy (d buf : Bytes) :
    Server.newConn (min d.length 128) (d.take (min d.length 128) ++
      buf.drop (min d.length 128)) = d.take 128 := by
  unfold Server.newConn
  rw [List.take_left' (by simp), take_min_length]

theorem serveLoop_datagrams (ds : List Bytes) :
    ∀ (buf : Bytes) (acc : List Bytes),
      serveLoop (ds.map Except.ok) buf acc =
        (acc ++ ds.map (fun d => d.take 128), none) := by
  induction ds with
  | nil => intro buf acc; simp [serveLoop]
  | cons d ds ih =>
    intro buf acc
    simp only [List.map_cons, serveLoop, newConn_fresh_copy]
    rw [ih]
    simp

theorem serveLoop_datagrams_then_error (ds : List Bytes) (e : NetErr)
    (rest : List (Except NetErr Bytes)) :
    ∀ (buf : Bytes) (acc : List Bytes),
      serveLoop (ds.map Except.ok ++ .error e :: rest) buf acc =
        (acc ++ ds.map (fun d => d.take 128),
          some (if e = .eof then .ok () else .error e)) := by
  induction ds with
  | nil => intro buf acc; simp [serveLoop]
  | cons d ds ih =>
    intro buf acc
    simp only [List.map_cons, List.cons_append, serveLoop, newConn_fresh_copy,
      List.append_eq]
    rw [ih]
    simp

/-- C8: the server accept loop hands every dispatched per-request task a
fresh copy of its own datagram truncated to the 128-byte receive buffer
(the shared buffer, reused and partially overwritten across iterations,
never leaks into a task: the dispatched buffers depend only on the
datagrams themselves, not on the initial or stale buffer contents);
`Serve` returns cleanly (`.ok ()`) when the transport read yields
`io.EOF`, returns any other transport read error, and the deferred
`p.Close()` marks the transport closed on every exit path. -/
theorem C8_serve_copy_eof_close (ds : List Bytes) (e : NetErr)
    (rest evts : List (Except NetErr Bytes)) :
    ((Server.Serve (ds.map Except.ok)).dispatched = ds.map (fun d => d.take 128) ∧
      (Server.Serve (ds.map Except.ok)).outcome = none) ∧
    ((Server.Serve (ds.map Except.ok ++ .error e :: rest)).dispatched =
        ds.map (fun d => d.take 128) ∧
      (Server.Serve (ds.map Except.ok ++ .error e :: rest)).outcome =
        some (if e = .eof then .ok () else .error e)) ∧
    (Server.Serve (ds.map Except.ok ++ .error .eof :: rest)).outcome = some (.ok ()) ∧
    (Server.Serve evts).closed = true := by
  refine ⟨⟨?_, ?_⟩, ⟨?_, ?_⟩, ?_, rfl⟩ <;>
    simp [Server.Serve, serveLoop_datagrams, serveLoop_datagrams_then_error]

/-- C10 helper: a successful `Packet.UnmarshalBinary` consumed a buffer of
at least the full declared size. -/
theorem unmarshalBinary_ok_length {b : Bytes} {p : Packet}
    (h : Packet.UnmarshalBinary b = .ok p) :
    8 + 2 * p.MACLength + 2 * p.IPLength ≤ b.length := by
  simp only [Packet.UnmarshalBinary] at h
  split at h
  · cases h
  · split at h
    next h2 => cases h
    next h2 =>
      cases h
      simp only
      omega

/-- C10 helper: a successful `parsePacket` consumed at least a 14-byte frame
header plus the packet's full declared size. -/
theorem parsePacket_ok_length {b : Bytes} {p : Packet} {f : Frame}
    (h : parsePacket b = .ok (p, f)) :
    14 ≤ b.length ∧ 8 + 2 * p.MACLength + 2 * p.IPLength ≤ b.length - 14 := by
  simp only [parsePacket] at h
  cases hf : Frame.UnmarshalBinary b with
  | error e => simp [hf] at h
  | ok fr =>
    simp only [hf] at h
    split at h
    · cases h
    · cases hu : Packet.UnmarshalBinary fr.Payload with
      | error e => simp [hu] at h
      | ok pk =>
        simp only [hu, Except.ok.injEq, Prod.mk.injEq] at h
        obtain ⟨hps, hfs⟩ := h
        subst hps hfs
        have hb := unmarshalBinary_ok_length hu
        simp only [Frame.UnmarshalBinary] at hf
        split at hf
        · cases hf
        next hlen =>
          cases hf
          simp only [List.length_drop] at hb
          omega

theorem read_ok_bound :
    ∀ (evts : List (Except NetErr Bytes)) (p : Packet) (f : Frame),
      Client.Read evts = some (.ok (p, f)) →
      14 + (8 + 2 * p.MACLength + 2 * p.IPLength) ≤ 128 := by
  intro evts
  induction evts with
  | nil =>
    intro p f h
    simp [Client.Read] at h
  | cons q rest ih =>
    intro p f h
    cases q with
    | error e => simp [Client.Read] at h
    | ok d =>
      simp only [Client.Read] at h
      split at h
      · exact ih p f h
      · simp at h
      next pf hp =>
        simp only [Option.some.injEq, Except.ok.injEq] at h
        subst h
        have hb := parsePacket_ok_length hp
        have hl : (d.take 128).length ≤ 128 := by
          simp
        omega

theorem serveLoop_dispatched_le (evts : List (Except NetErr Bytes)) :
    ∀ (buf : Bytes) (acc : List Bytes), (∀ b ∈ acc, b.length ≤ 128) →
      ∀ b ∈ (serveLoop evts buf acc).1, b.length ≤ 128 := by
  induction evts with
  | nil => intro buf acc hacc b hb; exact hacc b hb
  | cons q rest ih =>
    intro buf acc hacc b hb
    cases q with
    | error e => exact hacc b hb
    | ok d =>
      simp only [serveLoop] at hb
      refine ih _ _ ?_ b hb
      intro b' hb'
      rcases List.mem_append.mp hb' with h1 | h2
      · exact hacc b' h1
      · rw [List.mem_singleton.mp h2, newConn_fresh_copy]
        simp

/-- C10: both the client read loop and the server accept loop receive each
datagram into a 128-byte buffer, so decode sees at most the first 128
bytes of every inbound frame: every buffer the server dispatches is at
most 128 bytes long, any packet parsed from a buffer of at most 128
bytes fits its declared lengths within `128 - 14` payload bytes, and any
packet successfully returned by `Client.Read` satisfies
`14 + 8 + 2*MACLength + 2*IPLength ≤ 128` — an ARP packet whose declared
lengths require more than a 128-byte frame can never come out of either
loop. -/
theorem C10_reads_bounded_by_128 :
    (∀ (evts : List (Except NetErr Bytes)) (p : Packet) (f : Frame),
      Client.Read evts = some (.ok (p, f)) →
      14 + (8 + 2 * p.MACLength + 2 * p.IPLength) ≤ 128) ∧
    (∀ evts : List (Except NetErr Bytes),
      ∀ b ∈ (Server.Serve evts).dispatched, b.length ≤ 128) ∧
    (∀ (b : Bytes) (p : Packet) (f : Frame), b.length ≤ 128 →
      parsePacket b = .ok (p, f) →
      14 + (8 + 2 * p.MACLength + 2 * p.IPLength) ≤ 128) := by
  refine ⟨read_ok_bound, ?_, ?_⟩
  · intro evts b hb
    exact serveLoop_dispatched_le evts _ [] (by simp) b hb
  · intro b p f hb hp
    have := parsePacket_ok_length hp
    omega

/-- A 200-byte inbound datagram: a valid ARP-typed reply frame followed by
158 trailing bytes; the read loop truncates it to 128 bytes. -/
def dLong : Bytes :=
  [0, 0, 0, 0, 0, 0, 0, 0, 0, 0, 0, 0, 8, 6, 0, 1, 8, 0, 6, 4, 0, 2,
    2, 2, 2, 2, 2, 2, 10, 0, 0, 2, 0, 0, 0, 0, 0, 1, 10, 0, 0, 1] ++
  List.replicate 158 9

/-- The packet decoded from the first 128 bytes of `dLong`. -/
def pLong : Packet :=
  { HardwareType := 1, ProtocolType := etherTypeIPv4, MACLength := 6, IPLength := 4,
    Operation := 2, SenderMAC := [2, 2, 2, 2, 2, 2], SenderIP := [10, 0, 0, 2],
    TargetMAC := [0, 0, 0, 0, 0, 1], TargetIP := [10, 0, 0, 1] }

/-- The frame decoded from the first 128 bytes of `dLong`: its payload is
the 114 bytes left after the 14-byte header of the truncated frame. -/
def fLong : Frame :=
  { Destination := [0, 0, 0, 0, 0, 0], Source := [0, 0, 0, 0, 0, 0],
    EtherType := etherTypeARP,
    Payload := [0, 1, 8, 0, 6, 4, 0, 2, 2, 2, 2, 2, 2, 2, 10, 0, 0, 2,
      0, 0, 0, 0, 0, 1, 10, 0, 0, 1] ++ List.replicate 86 9 }

set_option maxRecDepth 8000 in
/-- Witness for C10: reading the 200-byte datagram `dLong` returns `pLong`,
whose declared lengths fit the 128-byte bound. -/
theorem C10_witness : 14 + (8 + 2 * pLong.MACLength + 2 * pLong.IPLength) ≤ 128 :=
  C10_reads_bounded_by_128.1 [.ok dLong] pLong fLong (by decide)

end Arp
